import Mathlib

/-!
Verification of phraze, a passphrase generator.

The repository splits into a CLI layer (main.rs, embedded here from the
source) and a core library (entropy resolution, passphrase assembly,
separator generation). The core library's source is not part of the
sources available here, so its operations are modelled from the
specification document; each such definition is marked
"Modelled from the spec:" in its doc comment. Definitions taken from
main.rs carry the source function names.

Randomness is embedded by dependency injection: every random draw is an
explicit parameter (a stream of raw values), as the specification's own
design notes prescribe for testability. Distributional statements
(uniformity) are out of scope of the embedding.
-/

namespace Phraze

/-- Failure values of the core, from the specification's error model:
a configuration error (degenerate word list) and an invalid request
(defensive rejection of a zero word count). -/
inductive PhrazeError where
  | configurationError
  | invalidRequest
deriving DecidableEq

/-- Modelled from the spec: the effective minimum entropy used by the
entropy resolver when no explicit word count is given, computed as
minimum_entropy.unwrap_or(80) + strength_steps * 20. -/
def effective_minimum_entropy (minimum_entropy : Option Nat) (strength_count : Nat) : Nat :=
  minimum_entropy.getD 80 + strength_count * 20

/-- Modelled from the spec: the smallest word count n such that
n * log2(list_length) is at least minimum_entropy, i.e. the ceiling of
minimum_entropy / log2(list_length). In exact integer arithmetic this is
the smallest n with list_length ^ n at least 2 ^ minimum_entropy, which
is Nat.clog list_length (2 ^ minimum_entropy). -/
def convert_minimum_entropy_to_number_of_words (minimum_entropy list_length : Nat) : Nat :=
  Nat.clog list_length (2 ^ minimum_entropy)

/-- Modelled from the spec: the entropy resolver (the core library's
calculate_number_words_needed is not under the available sources). An
explicit word count is returned unchanged; otherwise a list with fewer
than 2 entries is a configuration error signalled to the caller, and a
valid list yields the ceiling word count for the effective minimum
entropy. -/
def calculate_number_words_needed (number_of_words minimum_entropy : Option Nat)
    (strength_count list_length : Nat) : Except PhrazeError Nat :=
  match number_of_words with
  | some n => Except.ok n
  | none =>
    if list_length ≤ 1 then Except.error PhrazeError.configurationError
    else Except.ok (convert_minimum_entropy_to_number_of_words
        (effective_minimum_entropy minimum_entropy strength_count) list_length)

/-- An injected stream of raw random values: draw number i of a
generation call is the stream's value at i, reduced into the needed
range. The specification's design notes require the random source to be
passed explicitly as a parameter. -/
abbrev RandomStream := Nat → Nat

/-- Modelled from the spec: a separator specification is either a
literal string (including the empty string) or one of the three
generated modes, numeric, symbolic and mixed. -/
inductive SeparatorSpec where
  | literal (s : String)
  | numeric
  | symbolic
  | mixed
deriving DecidableEq

/-- The ten decimal digit characters used by numeric separators. -/
def digit_chars : List Char := ['0', '1', '2', '3', '4', '5', '6', '7', '8', '9']

/-- Modelled from the spec: the fixed symbol alphabet for symbolic
separators. The specification fixes that the alphabet is a documented
constant but does not enumerate it; a representative fixed alphabet is
used here. -/
def separator_symbols : List Char := ['!', '@', '#', '$', '%', '^', '&', '*', '(', ')']

/-- Modelled from the spec: the separator provider, invoked once per gap
between adjacent words. Literal mode returns the fixed string; numeric
mode draws one decimal digit; symbolic mode draws one symbol from the
fixed alphabet; mixed mode flips a coin per call between the two
generated modes. The two raw random values (coin and draw) are the
injected randomness for one call. -/
def next_separator (spec : SeparatorSpec) (coin draw : Nat) : String :=
  match spec with
  | SeparatorSpec.literal s => s
  | SeparatorSpec.numeric => String.mk [digit_chars.getD (draw % 10) '0']
  | SeparatorSpec.symbolic =>
      String.mk [separator_symbols.getD (draw % separator_symbols.length) '!']
  | SeparatorSpec.mixed =>
      if coin % 2 = 0 then String.mk [digit_chars.getD (draw % 10) '0']
      else String.mk [separator_symbols.getD (draw % separator_symbols.length) '!']

/-- Modelled from the spec: capitalize the first character of a word,
leaving the rest of the word unchanged, each word treated
independently. The spec prescribes Unicode-aware titlecasing of the
leading character; the Unicode titlecase mapping on characters is
external character data that neither the available sources nor the
spec carry, so it is injected as the to_title parameter, exactly as
the random source is injected. A lowercase leading letter becomes its
titlecase form because to_title is that mapping, and a non-letter
leading character is a fixed point of the mapping, which leaves the
word unchanged. -/
def title_case_word (to_title : Char → Char) (w : String) : String :=
  match w.data with
  | [] => w
  | c :: rest => String.mk (to_title c :: rest)

/-- Modelled from the spec: draw one word for the passphrase, by
reducing a raw random value into an index into the word list and
optionally applying title casing with the injected titlecase
mapping. -/
def draw_word (word_list : List String) (title_case : Bool) (to_title : Char → Char)
    (r : Nat) : String :=
  let w := word_list.getD (r % word_list.length) ""
  if title_case then title_case_word to_title w else w

/-- Join words with one separator in each of the gaps between adjacent
words: no separator before the first word and none after the last. -/
def join_words : List String → List String → String
  | [], _ => ""
  | [w], _ => w
  | w :: ws, [] => w ++ join_words ws []
  | w :: ws, s :: ss => w ++ (s ++ join_words ws ss)

/-- Modelled from the spec: the passphrase engine (the core library's
generate_passphrase is not under the available sources). A zero word
count is defensively rejected, an empty word list is a configuration
error; otherwise word_count words are drawn and joined with
word_count - 1 separators. Stream positions 0 to word_count - 1 feed the
word draws and the later positions feed the separator draws; to_title is
the injected Unicode titlecase mapping applied when the casing flag is
set. -/
def generate_passphrase (word_count : Nat) (spec : SeparatorSpec) (title_case : Bool)
    (to_title : Char → Char) (word_list : List String) (rng : RandomStream) :
    Except PhrazeError String :=
  if word_count = 0 then Except.error PhrazeError.invalidRequest
  else if word_list.isEmpty then Except.error PhrazeError.configurationError
  else
    let words := (List.range word_count).map
      (fun i => draw_word word_list title_case to_title (rng i))
    let seps := (List.range (word_count - 1)).map
      (fun i => next_separator spec (rng (word_count + 2 * i)) (rng (word_count + 2 * i + 1)))
    Except.ok (join_words words seps)

/-- Removal of adjacent duplicate entries, the behaviour of Vec::dedup
applied by read_in_custom_list after sorting. -/
def dedup_adjacent {α : Type} [DecidableEq α] : List α → List α
  | [] => []
  | [a] => [a]
  | a :: b :: rest =>
      if a = b then dedup_adjacent (b :: rest) else a :: dedup_adjacent (b :: rest)

/-- From main.rs: trim every line, drop blank and whitespace-only
lines, sort, and remove duplicates. The argument is the list of lines
read from the custom list file; file access itself stays outside the
embedding. The Unicode-normalization warning of the source only writes
to the diagnostic stream and is not modelled. -/
def read_in_custom_list (file_input : List String) : List String :=
  let word_list := (file_input.filter (fun line => line.trim ≠ "")).map String.trim
  dedup_adjacent (word_list.mergeSort (fun a b => a ≤ b))

/-- From main.rs: the enumeration of built-in word lists (named List in
the source, renamed here because Lean reserves List). -/
inductive ListChoice where
  | Long
  | Medium
  | Eff
  | Mnemonicode
  | Effshort
  | Qwerty
  | Alpha
deriving DecidableEq

/-- From main.rs: convert a list-choice string into a ListChoice value,
lowercasing the input first; unknown choices produce an error message
quoting the original input. -/
def parse_list_choice (list_choice : String) : Except String ListChoice :=
  if list_choice.toLower = "l" then Except.ok ListChoice.Long
  else if list_choice.toLower = "m" then Except.ok ListChoice.Medium
  else if list_choice.toLower = "e" then Except.ok ListChoice.Eff
  else if list_choice.toLower = "n" then Except.ok ListChoice.Mnemonicode
  else if list_choice.toLower = "s" then Except.ok ListChoice.Effshort
  else if list_choice.toLower = "q" then Except.ok ListChoice.Qwerty
  else if list_choice.toLower = "a" then Except.ok ListChoice.Alpha
  else Except.error ("Inputted list choice '" ++ list_choice
      ++ "' doesn't correspond to an available word list")

/-- Modelled from the spec: the sentinel separator strings _n, _s and _b
select the generated separator modes, every other string is a literal
separator. -/
def parse_separator (s : String) : SeparatorSpec :=
  if s = "_n" then SeparatorSpec.numeric
  else if s = "_s" then SeparatorSpec.symbolic
  else if s = "_b" then SeparatorSpec.mixed
  else SeparatorSpec.literal s

/-- From main.rs: the parsed command-line arguments. The custom list
option carries the lines of the custom list file (file reading itself
stays outside the embedding). -/
structure Args where
  strength_count : Nat
  minimum_entropy : Option Nat
  number_of_words : Option Nat
  n_passphrases : Nat
  separator : String
  list_choice : ListChoice
  custom_list_file_path : Option (List String)
  title_case : Bool
  verbose : Bool

/-- The message printed for a core failure value propagated out of the
run. -/
def error_message : PhrazeError → String
  | PhrazeError.configurationError => "Error: word list must have at least 2 unique words"
  | PhrazeError.invalidRequest => "Error: cannot generate a passphrase of 0 words"

/-- Propagation of a core failure value out of the run: the failure
message is printed, a success carries the passphrases through. -/
def wrap_core : Except PhrazeError (List String) → Except String (List String)
  | Except.error e => Except.error (error_message e)
  | Except.ok phrases => Except.ok phrases

/-- The generation loop of main.rs over a resolved word list: resolve
the word count, then generate n_passphrases passphrases; a core failure
value aborts the run with its message. The injected titlecase mapping
is passed through to the engine. -/
def run_generation (opt : Args) (word_list : List String) (to_title : Char → Char)
    (rngs : Nat → RandomStream) : Except String (List String) :=
  match calculate_number_words_needed opt.number_of_words opt.minimum_entropy
      opt.strength_count word_list.length with
  | Except.error e => Except.error (error_message e)
  | Except.ok n =>
    wrap_core ((List.range opt.n_passphrases).mapM
      (fun i => generate_passphrase n (parse_separator opt.separator)
        opt.title_case to_title word_list (rngs i)))

/-- From main.rs: the run. An error value models a panic before any
passphrase is printed; an ok value carries the passphrases printed to
standard output, in order. The built-in list is the output of the core
library's fetch_list for the chosen list (that data is not under the
available sources and is passed as a parameter, like the titlecase
mapping); the verbose entropy report only writes to the diagnostic
stream and is not modelled. -/
def main_run (opt : Args) (built_in_list : List String) (to_title : Char → Char)
    (rngs : Nat → RandomStream) : Except String (List String) :=
  if opt.custom_list_file_path.isSome && opt.separator.isEmpty && !opt.title_case then
    Except.error "Must use a separator or title case when using a custom word list"
  else
    match opt.custom_list_file_path.map read_in_custom_list with
    | some custom_list => run_generation opt custom_list to_title rngs
    | none => run_generation opt built_in_list to_title rngs

end Phraze

namespace Phraze

/-- Bridge between the integer characterization and the real-logarithm
characterization of the entropy constraint: for a list of at least two
words, n words give at least e bits of entropy iff the list size raised
to n reaches 2 ^ e. -/
theorem entropy_le_iff_pow_le (e n L : ℕ) (hL : 2 ≤ L) :
    ((e : ℝ) ≤ (n : ℝ) * Real.logb 2 (L : ℝ)) ↔ 2 ^ e ≤ L ^ n := by
  have hLpos : (0 : ℝ) < (L : ℝ) := by positivity
  have hpow : (0 : ℝ) < ((L : ℝ)) ^ n := by positivity
  rw [← Real.logb_pow, Real.le_logb_iff_rpow_le one_lt_two hpow, Real.rpow_natCast]
  constructor
  · intro h
    exact_mod_cast h
  · intro h
    exact_mod_cast h

/-- C1: for every list of length at least 2 and every positive effective
minimum entropy, when no explicit word count is given the entropy
resolver returns the smallest positive integer n whose n words deliver
at least the effective minimum entropy, i.e. the ceiling of
effective_minimum_entropy / log2(list_length). -/
theorem calculate_number_words_needed_is_ceiling (mo : Option ℕ) (k L : ℕ)
    (hL : 2 ≤ L) (he : 1 ≤ effective_minimum_entropy mo k) :
    ∃ n : ℕ, calculate_number_words_needed none mo k L = Except.ok n ∧ 0 < n ∧
      (effective_minimum_entropy mo k : ℝ) ≤ (n : ℝ) * Real.logb 2 (L : ℝ) ∧
      ((n : ℝ) - 1) * Real.logb 2 (L : ℝ) < (effective_minimum_entropy mo k : ℝ) ∧
      (∀ m : ℕ, (effective_minimum_entropy mo k : ℝ) ≤ (m : ℝ) * Real.logb 2 (L : ℝ) → n ≤ m) ∧
      (n : ℤ) = ⌈(effective_minimum_entropy mo k : ℝ) / Real.logb 2 (L : ℝ)⌉ := by
  set e := effective_minimum_entropy mo k with he_def
  have hb : 1 < L := hL
  have h2e : 2 ≤ 2 ^ e := by
    calc 2 = 2 ^ 1 := (pow_one 2).symm
    _ ≤ 2 ^ e := Nat.pow_le_pow_right (by norm_num) he
  refine ⟨Nat.clog L (2 ^ e), ?_, ?_, ?_, ?_, ?_, ?_⟩
  · have hnotle : ¬ (L ≤ 1) := by omega
    simp [calculate_number_words_needed, hnotle,
      convert_minimum_entropy_to_number_of_words]
  · exact Nat.clog_pos hb h2e
  · exact (entropy_le_iff_pow_le e _ L hL).2 (Nat.le_pow_clog hb (2 ^ e))
  · set n := Nat.clog L (2 ^ e) with hn_def
    have hnpos : 0 < n := Nat.clog_pos hb h2e
    by_contra hcon
    push_neg at hcon
    have hcast : ((n : ℝ) - 1) = ((n - 1 : ℕ) : ℝ) := by
      rw [Nat.cast_sub hnpos]
      norm_num
    rw [hcast] at hcon
    have : n ≤ n - 1 :=
      (Nat.le_pow_iff_clog_le hb).1 ((entropy_le_iff_pow_le e (n - 1) L hL).1 hcon)
    omega
  · intro m hm
    exact (Nat.le_pow_iff_clog_le hb).1 ((entropy_le_iff_pow_le e m L hL).1 hm)
  · set n := Nat.clog L (2 ^ e) with hn_def
    have hnpos : 0 < n := Nat.clog_pos hb h2e
    have hlogpos : 0 < Real.logb 2 (L : ℝ) :=
      Real.logb_pos one_lt_two (by exact_mod_cast hb)
    have hupper : (e : ℝ) ≤ (n : ℝ) * Real.logb 2 (L : ℝ) :=
      (entropy_le_iff_pow_le e n L hL).2 (Nat.le_pow_clog hb (2 ^ e))
    have hlower : ((n : ℝ) - 1) * Real.logb 2 (L : ℝ) < (e : ℝ) := by
      by_contra hcon
      push_neg at hcon
      have hcast : ((n : ℝ) - 1) = ((n - 1 : ℕ) : ℝ) := by
        rw [Nat.cast_sub hnpos]
        norm_num
      rw [hcast] at hcon
      have : n ≤ n - 1 :=
        (Nat.le_pow_iff_clog_le hb).1 ((entropy_le_iff_pow_le e (n - 1) L hL).1 hcon)
      omega
    refine (Int.ceil_eq_iff.mpr ⟨?_, ?_⟩).symm
    · push_cast
      rw [lt_div_iff₀ hlogpos]
      exact hlower
    · push_cast
      rw [div_le_iff₀ hlogpos]
      exact hupper

/-- Witness for C1 at the spec's end-to-end example: a list of 8192
words and a minimum entropy of 80 bits resolve to 7 words. -/
theorem calculate_number_words_needed_is_ceiling_witness :
    calculate_number_words_needed none (some 80) 0 8192 = Except.ok 7 ∧
    (∃ n : ℕ, calculate_number_words_needed none (some 80) 0 8192 = Except.ok n ∧ 0 < n ∧
      (effective_minimum_entropy (some 80) 0 : ℝ) ≤ (n : ℝ) * Real.logb 2 ((8192 : ℕ) : ℝ) ∧
      ((n : ℝ) - 1) * Real.logb 2 ((8192 : ℕ) : ℝ) < (effective_minimum_entropy (some 80) 0 : ℝ) ∧
      (∀ m : ℕ, (effective_minimum_entropy (some 80) 0 : ℝ) ≤ (m : ℝ) * Real.logb 2 ((8192 : ℕ) : ℝ) → n ≤ m) ∧
      (n : ℤ) = ⌈(effective_minimum_entropy (some 80) 0 : ℝ) / Real.logb 2 ((8192 : ℕ) : ℝ)⌉) := by
  constructor
  · have h7 : Nat.clog 8192 (2 ^ 80) = 7 := by
      have hb : (1 : ℕ) < 8192 := by norm_num
      refine le_antisymm ?_ ?_
      · exact (Nat.le_pow_iff_clog_le hb).1 (by norm_num)
      · have := (Nat.pow_lt_iff_lt_clog hb).1 (show 8192 ^ 6 < 2 ^ 80 by norm_num)
        omega
    simp [calculate_number_words_needed, convert_minimum_entropy_to_number_of_words,
      effective_minimum_entropy]
    norm_num at h7
    exact h7
  · exact calculate_number_words_needed_is_ceiling (some 80) 0 8192 (by norm_num)
      (by simp [effective_minimum_entropy])

/-- C3: the entropy resolver computes its effective minimum entropy as
minimum_entropy.unwrap_or(80) + strength_steps * 20, so resolving with
strength steps k and no explicit minimum entropy agrees with resolving
with minimum entropy 80 + 20k and no strength steps. -/
theorem calculate_number_words_needed_strength_equiv (mo : Option ℕ) (k L : ℕ) :
    calculate_number_words_needed none mo k L
      = calculate_number_words_needed none (some (mo.getD 80 + k * 20)) 0 L ∧
    calculate_number_words_needed none none k L
      = calculate_number_words_needed none (some (80 + 20 * k)) 0 L := by
  constructor
  · simp [calculate_number_words_needed, effective_minimum_entropy]
  · simp [calculate_number_words_needed, effective_minimum_entropy, Nat.mul_comm]

/-- C4: for a word list with fewer than 2 entries and no explicit word
count, the entropy resolver signals a configuration error as an explicit
failure value. -/
theorem calculate_number_words_needed_config_error (mo : Option ℕ) (k L : ℕ)
    (hL : L ≤ 1) :
    calculate_number_words_needed none mo k L
      = Except.error PhrazeError.configurationError := by
  simp [calculate_number_words_needed, hL]

/-- Witness for C4: a one-word list yields a configuration error. -/
theorem calculate_number_words_needed_config_error_witness :
    calculate_number_words_needed none none 0 1
      = Except.error PhrazeError.configurationError :=
  calculate_number_words_needed_config_error none 0 1 (by norm_num)

/-- The length of a joined passphrase is exactly the sum of the word
lengths and the separator lengths: no characters are added or lost. -/
theorem join_words_length : ∀ (ws ss : List String), ss.length + 1 = ws.length →
    (join_words ws ss).length = (ws.map String.length).sum + (ss.map String.length).sum
  | [], ss => fun h => by simp at h
  | [w], ss => fun h => by
      have hss : ss = [] := by simpa using h
      subst hss
      simp [join_words]
  | w :: w2 :: ws, [] => fun h => by simp at h
  | w :: w2 :: ws, s :: ss => fun h => by
      have ih := join_words_length (w2 :: ws) ss (by simp at h ⊢; omega)
      simp only [join_words, String.length_append, List.map_cons, List.sum_cons] at ih ⊢
      omega

/-- A joined passphrase starts with its first word: no separator is
placed before the first word. -/
theorem join_words_head : ∀ (w : String) (ws ss : List String),
    ∃ t, join_words (w :: ws) ss = w ++ t
  | w, [], ss => ⟨"", by simp [join_words]⟩
  | w, w2 :: ws, [] => ⟨join_words (w2 :: ws) [], rfl⟩
  | w, w2 :: ws, s :: ss => ⟨s ++ join_words (w2 :: ws) ss, rfl⟩

/-- A joined passphrase ends with its last word: no separator is placed
after the last word. -/
theorem join_words_last : ∀ (ws ss : List String), ws ≠ [] →
    ∃ t, join_words ws ss = t ++ (ws.getLast?).getD ""
  | [], _ => fun h => absurd rfl h
  | [w], ss => fun _ => ⟨"", by simp [join_words]⟩
  | w :: w2 :: ws, [] => fun _ => by
      obtain ⟨t, ht⟩ := join_words_last (w2 :: ws) [] (by simp)
      refine ⟨w ++ t, ?_⟩
      rw [List.getLast?_cons_cons]
      simp only [join_words, ht, String.append_assoc]
  | w :: w2 :: ws, s :: ss => fun _ => by
      obtain ⟨t, ht⟩ := join_words_last (w2 :: ws) ss (by simp)
      refine ⟨w ++ (s ++ t), ?_⟩
      rw [List.getLast?_cons_cons]
      simp only [join_words, ht, String.append_assoc]

/-- C5: the passphrase engine defensively rejects a word count of zero
with an explicit failure value, for every word list, separator
specification, casing flag and titlecase mapping. -/
theorem generate_passphrase_rejects_zero (spec : SeparatorSpec) (title : Bool)
    (to_title : Char → Char) (wl : List String) (rng : RandomStream) :
    generate_passphrase 0 spec title to_title wl rng
      = Except.error PhrazeError.invalidRequest := rfl

/-- C6: the separator provider returns the fixed string on every call in
literal mode, a single decimal digit in numeric mode, a symbol of the
fixed alphabet in symbolic mode, and one of the two in mixed mode. -/
theorem next_separator_modes (c v c2 v2 : ℕ) (s : String) :
    next_separator (SeparatorSpec.literal s) c v = s ∧
    next_separator (SeparatorSpec.literal s) c v
      = next_separator (SeparatorSpec.literal s) c2 v2 ∧
    (∃ d ∈ digit_chars, next_separator SeparatorSpec.numeric c v = String.mk [d]) ∧
    (∃ y ∈ separator_symbols, next_separator SeparatorSpec.symbolic c v = String.mk [y]) ∧
    ((∃ d ∈ digit_chars, next_separator SeparatorSpec.mixed c v = String.mk [d]) ∨
      (∃ y ∈ separator_symbols, next_separator SeparatorSpec.mixed c v = String.mk [y])) := by
  have hdig : v % 10 < digit_chars.length := by
    rw [show digit_chars.length = 10 from rfl]
    omega
  have hsym : v % separator_symbols.length < separator_symbols.length := by
    rw [show separator_symbols.length = 10 from rfl]
    omega
  refine ⟨rfl, rfl, ?_, ?_, ?_⟩
  · refine ⟨digit_chars.getD (v % 10) '0', ?_, rfl⟩
    rw [List.getD_eq_getElem _ _ hdig]
    exact List.getElem_mem hdig
  · refine ⟨separator_symbols.getD (v % separator_symbols.length) '!', ?_, rfl⟩
    rw [List.getD_eq_getElem _ _ hsym]
    exact List.getElem_mem hsym
  · by_cases hc : c % 2 = 0
    · left
      refine ⟨digit_chars.getD (v % 10) '0', ?_, by simp [next_separator, hc]⟩
      rw [List.getD_eq_getElem _ _ hdig]
      exact List.getElem_mem hdig
    · right
      refine ⟨separator_symbols.getD (v % separator_symbols.length) '!', ?_,
        by simp [next_separator, hc]⟩
      rw [List.getD_eq_getElem _ _ hsym]
      exact List.getElem_mem hsym

/-- C2: for a positive word count and a non-empty word list, the engine
returns a passphrase of exactly word_count words joined by exactly
word_count - 1 separators, whose length is exactly the words plus the
separators, which starts with the first word and ends with the last
word. -/
theorem generate_passphrase_structure (wc : ℕ) (spec : SeparatorSpec) (title : Bool)
    (to_title : Char → Char) (wl : List String) (rng : RandomStream)
    (hwc : 1 ≤ wc) (hwl : wl ≠ []) :
    ∃ ws ss : List String,
      generate_passphrase wc spec title to_title wl rng = Except.ok (join_words ws ss) ∧
      ws.length = wc ∧ ss.length = wc - 1 ∧
      (join_words ws ss).length
        = (ws.map String.length).sum + (ss.map String.length).sum ∧
      (∃ t, join_words ws ss = ws.headD "" ++ t) ∧
      (∃ t, join_words ws ss = t ++ (ws.getLast?).getD "") := by
  have h0 : ¬ (wc = 0) := by omega
  have hempty : wl.isEmpty = false := by
    cases wl with
    | nil => exact absurd rfl hwl
    | cons a l => rfl
  refine ⟨(List.range wc).map (fun i => draw_word wl title to_title (rng i)),
    (List.range (wc - 1)).map
      (fun i => next_separator spec (rng (wc + 2 * i)) (rng (wc + 2 * i + 1))),
    ?_, ?_, ?_, ?_, ?_, ?_⟩
  · simp [generate_passphrase, h0, hempty]
  · simp
  · simp
  · apply join_words_length
    simp
    omega
  · have hne : (List.range wc).map (fun i => draw_word wl title to_title (rng i)) ≠ [] := by
      simp
      omega
    obtain ⟨w, ws2, hws⟩ := List.exists_cons_of_ne_nil hne
    rw [hws]
    simpa using join_words_head w ws2 _
  · apply join_words_last
    simp
    omega

/-- Witness for C2: two words from a two-word list with the default
literal separator. -/
theorem generate_passphrase_structure_witness :
    1 ≤ 2 ∧ (["apple", "banana"] : List String) ≠ [] ∧
    (∃ ws ss : List String,
      generate_passphrase 2 (SeparatorSpec.literal "-") false Char.toUpper
          ["apple", "banana"] (fun _ => 0) = Except.ok (join_words ws ss) ∧
      ws.length = 2 ∧ ss.length = 2 - 1 ∧
      (join_words ws ss).length
        = (ws.map String.length).sum + (ss.map String.length).sum ∧
      (∃ t, join_words ws ss = ws.headD "" ++ t) ∧
      (∃ t, join_words ws ss = t ++ (ws.getLast?).getD "")) :=
  ⟨by norm_num, by simp,
    generate_passphrase_structure 2 (SeparatorSpec.literal "-") false Char.toUpper
      ["apple", "banana"] (fun _ => 0) (by norm_num) (by simp)⟩

/-- C7: for every injected titlecase mapping, with title casing on every
word of the passphrase is a word of the source list with the mapping
applied to its first character and the rest of the word unchanged, each
word independently; a leading character that the mapping fixes (such as
any non-letter) leaves the word entirely unchanged; with title casing
off, every word appears exactly as in the source list. -/
theorem generate_passphrase_title_casing (wc : ℕ) (spec : SeparatorSpec) (title : Bool)
    (to_title : Char → Char) (wl : List String) (rng : RandomStream)
    (hwc : 1 ≤ wc) (hwl : wl ≠ []) :
    ∃ ws ss : List String,
      generate_passphrase wc spec title to_title wl rng = Except.ok (join_words ws ss) ∧
      ws.length = wc ∧
      (∀ w ∈ ws, ∃ orig ∈ wl,
        w = (if title then title_case_word to_title orig else orig)) ∧
      (∀ (c : Char) (rest : List Char),
        title_case_word to_title (String.mk (c :: rest))
          = String.mk (to_title c :: rest)) ∧
      (∀ (c : Char) (rest : List Char), to_title c = c →
        title_case_word to_title (String.mk (c :: rest)) = String.mk (c :: rest)) ∧
      title_case_word to_title "" = "" := by
  have h0 : ¬ (wc = 0) := by omega
  have hempty : wl.isEmpty = false := by
    cases wl with
    | nil => exact absurd rfl hwl
    | cons a l => rfl
  refine ⟨(List.range wc).map (fun i => draw_word wl title to_title (rng i)),
    (List.range (wc - 1)).map
      (fun i => next_separator spec (rng (wc + 2 * i)) (rng (wc + 2 * i + 1))),
    ?_, ?_, ?_, ?_, ?_, ?_⟩
  · simp [generate_passphrase, h0, hempty]
  · simp
  · intro w hw
    simp only [List.mem_map, List.mem_range] at hw
    obtain ⟨i, hi, hfi⟩ := hw
    have hlen : 0 < wl.length := List.length_pos.2 hwl
    have hidx : rng i % wl.length < wl.length := Nat.mod_lt _ hlen
    refine ⟨wl.getD (rng i % wl.length) "", ?_, ?_⟩
    · rw [List.getD_eq_getElem _ _ hidx]
      exact List.getElem_mem hidx
    · rw [← hfi]
      rfl
  · intro c rest
    rfl
  · intro c rest hfix
    show String.mk (to_title c :: rest) = String.mk (c :: rest)
    rw [hfix]
  · rfl

/-- Witness for C7: two title-cased words from a two-word list, with the
basic-latin titlecase mapping as the concrete injected mapping. -/
theorem generate_passphrase_title_casing_witness :
    1 ≤ 2 ∧ (["apple", "banana"] : List String) ≠ [] ∧
    (∃ ws ss : List String,
      generate_passphrase 2 (SeparatorSpec.literal "-") true Char.toUpper
          ["apple", "banana"] (fun _ => 0) = Except.ok (join_words ws ss) ∧
      ws.length = 2 ∧
      (∀ w ∈ ws, ∃ orig ∈ (["apple", "banana"] : List String),
        w = (if true then title_case_word Char.toUpper orig else orig)) ∧
      (∀ (c : Char) (rest : List Char),
        title_case_word Char.toUpper (String.mk (c :: rest))
          = String.mk (Char.toUpper c :: rest)) ∧
      (∀ (c : Char) (rest : List Char), Char.toUpper c = c →
        title_case_word Char.toUpper (String.mk (c :: rest)) = String.mk (c :: rest)) ∧
      title_case_word Char.toUpper "" = "") :=
  ⟨by norm_num, by simp,
    generate_passphrase_title_casing 2 (SeparatorSpec.literal "-") true Char.toUpper
      ["apple", "banana"] (fun _ => 0) (by norm_num) (by simp)⟩

/-- Removing adjacent duplicates does not change the set of entries. -/
theorem mem_dedup_adjacent {α : Type} [DecidableEq α] :
    ∀ (l : List α) (a : α), a ∈ dedup_adjacent l ↔ a ∈ l
  | [], a => Iff.rfl
  | [b], a => Iff.rfl
  | b :: c :: rest, a => by
      by_cases h : b = c
      · subst h
        simp only [dedup_adjacent, eq_self_iff_true, if_true]
        rw [mem_dedup_adjacent (b :: rest) a]
        simp only [List.mem_cons]
        tauto
      · simp only [dedup_adjacent, if_neg h, List.mem_cons]
        rw [mem_dedup_adjacent (c :: rest) a, List.mem_cons]

/-- Removing adjacent duplicates from a list sorted weakly ascending
yields a strictly ascending list. -/
theorem dedup_adjacent_sorted :
    ∀ l : List String, l.Pairwise (· ≤ ·) → (dedup_adjacent l).Pairwise (· < ·)
  | [] => fun _ => by simp [dedup_adjacent]
  | [a] => fun _ => by simp [dedup_adjacent]
  | a :: b :: rest => fun h => by
      rw [List.pairwise_cons] at h
      obtain ⟨ha, hb⟩ := h
      by_cases hab : a = b
      · simp only [dedup_adjacent, if_pos hab]
        exact dedup_adjacent_sorted (b :: rest) hb
      · simp only [dedup_adjacent, if_neg hab]
        rw [List.pairwise_cons]
        refine ⟨?_, dedup_adjacent_sorted (b :: rest) hb⟩
        intro x hx
        rw [mem_dedup_adjacent] at hx
        have hab2 : a < b := lt_of_le_of_ne (ha b (by simp)) hab
        rcases List.mem_cons.1 hx with hxb | hxr
        · rw [hxb]
          exact hab2
        · rw [List.pairwise_cons] at hb
          exact lt_of_lt_of_le hab2 (hb.1 x hxr)

/-- The sort applied by read_in_custom_list produces a weakly ascending
list. -/
theorem mergeSort_le_sorted (word_list : List String) :
    (word_list.mergeSort (fun a b => a ≤ b)).Pairwise (· ≤ ·) := by
  have h := @List.sorted_mergeSort String (fun a b : String => decide (a ≤ b))
    (fun a b c h1 h2 => by
      simp only [decide_eq_true_eq] at h1 h2 ⊢
      exact le_trans h1 h2)
    (fun a b => by
      simp only [Bool.or_eq_true, decide_eq_true_eq]
      exact le_total a b)
    word_list
  exact h.imp (fun hd => of_decide_eq_true hd)

/-- C9: the word list built from a custom list file consists of the
file's lines with surrounding whitespace trimmed, with blank and
whitespace-only lines removed, sorted strictly ascending and therefore
free of duplicate entries. -/
theorem read_in_custom_list_spec (lines : List String) :
    (read_in_custom_list lines).Pairwise (· < ·) ∧
    (read_in_custom_list lines).Nodup ∧
    (∀ w : String, w ∈ read_in_custom_list lines ↔
      (∃ line ∈ lines, line.trim = w) ∧ w ≠ "") := by
  have hsorted : (read_in_custom_list lines).Pairwise (· < ·) := by
    simp only [read_in_custom_list]
    exact dedup_adjacent_sorted _ (mergeSort_le_sorted _)
  refine ⟨hsorted, hsorted.imp (fun h => ne_of_lt h), ?_⟩
  intro w
  simp only [read_in_custom_list]
  rw [mem_dedup_adjacent, List.mem_mergeSort]
  simp only [List.mem_map, List.mem_filter, decide_eq_true_eq]
  constructor
  · rintro ⟨line, ⟨hline, hne⟩, heq⟩
    exact ⟨⟨line, hline, heq⟩, by rw [← heq]; exact hne⟩
  · rintro ⟨⟨line, hline, heq⟩, hw⟩
    exact ⟨line, ⟨hline, by rw [heq]; exact hw⟩, heq⟩

/-- C10: parse_list_choice maps a string whose lowercase form is one of
the seven list letters to the corresponding built-in list, so uppercase
variants are accepted, and rejects every other string with a message
quoting the original input. -/
theorem parse_list_choice_spec (s : String) :
    (parse_list_choice s = Except.ok ListChoice.Long ↔ s.toLower = "l") ∧
    (parse_list_choice s = Except.ok ListChoice.Medium ↔ s.toLower = "m") ∧
    (parse_list_choice s = Except.ok ListChoice.Eff ↔ s.toLower = "e") ∧
    (parse_list_choice s = Except.ok ListChoice.Mnemonicode ↔ s.toLower = "n") ∧
    (parse_list_choice s = Except.ok ListChoice.Effshort ↔ s.toLower = "s") ∧
    (parse_list_choice s = Except.ok ListChoice.Qwerty ↔ s.toLower = "q") ∧
    (parse_list_choice s = Except.ok ListChoice.Alpha ↔ s.toLower = "a") ∧
    (s.toLower ∉ (["l", "m", "e", "n", "s", "q", "a"] : List String) →
      parse_list_choice s = Except.error ("Inputted list choice '" ++ s
        ++ "' doesn't correspond to an available word list")) := by
  by_cases h1 : s.toLower = "l"
  · simp [parse_list_choice, h1]
  by_cases h2 : s.toLower = "m"
  · simp [parse_list_choice, h1, h2]
  by_cases h3 : s.toLower = "e"
  · simp [parse_list_choice, h1, h2, h3]
  by_cases h4 : s.toLower = "n"
  · simp [parse_list_choice, h1, h2, h3, h4]
  by_cases h5 : s.toLower = "s"
  · simp [parse_list_choice, h1, h2, h3, h4, h5]
  by_cases h6 : s.toLower = "q"
  · simp [parse_list_choice, h1, h2, h3, h4, h5, h6]
  by_cases h7 : s.toLower = "a"
  · simp [parse_list_choice, h1, h2, h3, h4, h5, h6, h7]
  · simp [parse_list_choice, h1, h2, h3, h4, h5, h6, h7]

/-- Witness for C10: the uppercase choice M is accepted and selects the
medium list. -/
theorem parse_list_choice_spec_witness :
    parse_list_choice "M" = Except.ok ListChoice.Medium :=
  ((parse_list_choice_spec "M").2.1).mpr (by rw [String.toLower, String.map_eq]; decide)

/-- The generation phase of a run never reports the separator-hazard
message: its failures carry the core error messages. -/
theorem run_generation_ne_hazard (opt : Args) (wl : List String)
    (to_title : Char → Char) (rngs : Nat → RandomStream) :
    run_generation opt wl to_title rngs
      ≠ Except.error "Must use a separator or title case when using a custom word list" := by
  have hwrap : ∀ r : Except PhrazeError (List String), wrap_core r
      ≠ Except.error "Must use a separator or title case when using a custom word list" := by
    intro r
    cases r with
    | error e => cases e <;> simp [wrap_core, error_message]
    | ok phrases => simp [wrap_core]
  rw [run_generation]
  cases hcal : calculate_number_words_needed opt.number_of_words opt.minimum_entropy
      opt.strength_count wl.length with
  | error e =>
    cases e <;> simp [error_message]
  | ok n =>
    exact hwrap _

/-- C8: a run with a custom word list, an empty separator and no title
casing aborts with the hazard message before printing any passphrase;
with a non-empty separator or with title casing this check never
rejects the run. -/
theorem main_run_separator_hazard (opt : Args) (bl : List String)
    (to_title : Char → Char) (rngs : Nat → RandomStream) :
    (opt.custom_list_file_path.isSome = true → opt.separator = "" →
      opt.title_case = false →
      main_run opt bl to_title rngs
        = Except.error "Must use a separator or title case when using a custom word list") ∧
    (opt.separator ≠ "" ∨ opt.title_case = true →
      main_run opt bl to_title rngs
        ≠ Except.error "Must use a separator or title case when using a custom word list") := by
  constructor
  · intro h1 h2 h3
    have hcond : (opt.custom_list_file_path.isSome && opt.separator.isEmpty
        && !opt.title_case) = true := by
      rw [h1, h2, h3]
      rfl
    simp [main_run, hcond]
  · intro h
    have hcond : (opt.custom_list_file_path.isSome && opt.separator.isEmpty
        && !opt.title_case) = false := by
      rcases h with hs | ht
      · have hempty : opt.separator.isEmpty = false := by
          rw [Bool.eq_false_iff]
          intro hc
          exact hs ((String.isEmpty_iff _).1 hc)
        simp [hempty]
      · simp [ht]
    rw [main_run, hcond]
    simp only [Bool.false_eq_true, if_false]
    cases hc : opt.custom_list_file_path with
    | none =>
      exact run_generation_ne_hazard opt bl to_title rngs
    | some lines =>
      exact run_generation_ne_hazard opt (read_in_custom_list lines) to_title rngs

/-- Witness for C8: a custom list with an empty separator and no title
casing is rejected with the hazard message. -/
theorem main_run_separator_hazard_witness :
    main_run
      ⟨0, none, none, 1, "", ListChoice.Medium, some ["apple", "banana"], false, false⟩
      [] Char.toUpper (fun _ _ => 0)
      = Except.error "Must use a separator or title case when using a custom word list" :=
  (main_run_separator_hazard
    ⟨0, none, none, 1, "", ListChoice.Medium, some ["apple", "banana"], false, false⟩
    [] Char.toUpper (fun _ _ => 0)).1 rfl rfl rfl

end Phraze
